import Mathlib

/-!
Verification development for the checkpointed audience-processing engine of
the Bluesky bot repository.  The definitions below are shallow embeddings of
the Python source files: `utils.py` (audience fetching, deduplication, author
feed scanning, progress persistence), `bluesky_bot.py` (the `/start`,
`/resume` routes and the `_run_worker` loop), `botFarah.py`
(`BlueSkyBot.fetch_latest_post`, `process_reposters_with_replies`,
`save_progress`), `config.py` (`_save_all_progress`) and `bot.py`
(`queue_task`).  External network calls are modelled by explicit oracle
parameters (the pages a service would serve, the outcome of a probe, the
success of a reply submission); everything else follows the source line by
line.
-/

namespace BlueskyBot


/-- An audience member as built in `utils.fetch_audience`
(`{"did": actor.did, "handle": actor.handle}`). -/
structure Actor where
  did : String
  handle : String
deriving Repr, DecidableEq

/-- The deduplication loop at the end of `utils.fetch_audience`
(`seen, unique = set(), []; for a in audience: if a["did"] not in seen: ...`),
keeping the first occurrence of each `did` in order.  The `seen` argument is
the set of dids already kept. -/
def dedup_audience : List Actor → List String → List Actor
  | [], _ => []
  | a :: rest, seen =>
    if a.did ∈ seen then dedup_audience rest seen
    else a :: dedup_audience rest (a.did :: seen)

/-- `utils.fetch_audience`: the paginated listing pages are concatenated in
arrival order and then deduplicated by `did`, first occurrence winning.  The
`pages` argument is the sequence of pages the external service serves for the
requested mode. -/
def fetch_audience (pages : List (List Actor)) : List Actor :=
  dedup_audience pages.flatten []

/-- A post object as inspected by `utils._get_author_did_from_post`:
`author_did` is `post.author.did` when that attribute chain exists and is
truthy, `none` otherwise; `uri` is the post record location. -/
structure Post where
  author_did : Option String
  uri : String
deriving Repr, DecidableEq

/-- An entry of an author-feed page: `reason` is the truthiness of
`getattr(item, "reason", None)` (set exactly on reposts), `post` is
`item.post`. -/
structure FeedItem where
  reason : Bool
  post : Post
deriving Repr, DecidableEq

/-- One response of `app.bsky.feed.get_author_feed`: the served items and the
optional continuation cursor. -/
structure FeedPage where
  feed : List FeedItem
  cursor : Option String
deriving Repr, DecidableEq

/-- `utils._is_repost`: `bool(getattr(item, "reason", None))`. -/
def is_repost (item : FeedItem) : Bool :=
  item.reason

/-- `utils._get_author_did_from_post`: prefer `post.author.did`; otherwise
split the uri on `/` and return component 2 when there are at least 4
components and it starts with `did:`. -/
def get_author_did_from_post (p : Post) : Option String :=
  match p.author_did with
  | some d => some d
  | none =>
    let parts := p.uri.splitOn "/"
    if 4 ≤ parts.length && String.isPrefixOf "did:" (parts.getD 2 "") then
      some (parts.getD 2 "")
    else
      none

/-- The qualifying test applied to each feed item in `utils.has_posts` and
`utils.latest_post_uri`: not a repost, and the post's author resolves to the
requested actor. -/
def qualifies (who : String) (item : FeedItem) : Bool :=
  !is_repost item && (get_author_did_from_post item.post == some who)

/-- `utils.has_posts`, parameterised by the sequence of pages the external
service serves as the scan follows cursors (an exhausted sequence behaves as
a response with an empty feed).  The fuel argument is the `for _ in range(3)`
counter. -/
def has_posts_go (who : String) : Nat → List FeedPage → Bool
  | 0, _ => false
  | _ + 1, [] => false
  | n + 1, p :: rest =>
    if p.feed.isEmpty then false
    else if p.feed.any (qualifies who) then true
    else
      match p.cursor with
      | none => false
      | some _ => has_posts_go who n rest

/-- `utils.has_posts`: at most three pages are scanned. -/
def has_posts (who : String) (pages : List FeedPage) : Bool :=
  has_posts_go who 3 pages

/-- Number of page requests issued by `utils.has_posts` on a given service
page sequence (each loop iteration issues exactly one request). -/
def has_posts_reqs (who : String) : Nat → List FeedPage → Nat
  | 0, _ => 0
  | _ + 1, [] => 1
  | n + 1, p :: rest =>
    if p.feed.isEmpty then 1
    else if p.feed.any (qualifies who) then 1
    else
      match p.cursor with
      | none => 1
      | some _ => 1 + has_posts_reqs who n rest

/-- `utils.latest_post_uri`: the `while True` scan over the author feed,
returning the uri of the first qualifying item; stops only on an empty feed
or a missing continuation cursor. -/
def latest_post_uri (who : String) : List FeedPage → Option String
  | [] => none
  | p :: rest =>
    if p.feed.isEmpty then none
    else
      match p.feed.find? (qualifies who) with
      | some item => some item.post.uri
      | none =>
        match p.cursor with
        | none => none
        | some _ => latest_post_uri who rest

/-- Number of page requests issued by `utils.latest_post_uri` on a given
service page sequence. -/
def latest_post_uri_reqs (who : String) : List FeedPage → Nat
  | [] => 1
  | p :: rest =>
    if p.feed.isEmpty then 1
    else if p.feed.any (qualifies who) then 1
    else
      match p.cursor with
      | none => 1
      | some _ => 1 + latest_post_uri_reqs who rest

/-- `botFarah.BlueSkyBot.fetch_latest_post`: a single `get_author_feed`
request (limit 20); returns the uri of the first non-repost item, without any
author check. -/
def fetch_latest_post (page : FeedPage) : Option String :=
  if page.feed.isEmpty then none
  else (page.feed.find? (fun item => !is_repost item)).map (fun i => i.post.uri)

/-- A feed page holding a single repost and a continuation cursor: it never
qualifies, and the scan follows its cursor to the next page. -/
def junkPage : FeedPage :=
  { feed := [{ reason := true, post := { author_did := some "x", uri := "u" } }],
    cursor := some "c" }

/-- The `stats` sub-dictionary of the persisted progress record in
`bluesky_bot.py` (`{"ok": 0, "fail": 0, "total": 0}`). -/
structure Stats where
  ok : Nat
  fail : Nat
  total : Nat
deriving Repr, DecidableEq

/-- The persisted progress record of `bluesky_bot.py` (the key/value layout
written by `save_progress`).  The `task` sub-dictionary, which only echoes
the submitted configuration, is not needed by any claim and is omitted. -/
structure Progress where
  state : String
  audience : List Actor
  index : Nat
  stats : Stats
  perUser : List (String × String)
  lastError : String
deriving Repr, DecidableEq

/-- Python dict assignment `per_user[did] = v`: overwrite an existing key in
place, otherwise append. -/
def setPerUser (m : List (String × String)) (k v : String) :
    List (String × String) :=
  if m.any (fun p => p.1 == k) then
    m.map (fun p => if p.1 == k then (k, v) else p)
  else
    m ++ [(k, v)]

/-- The success branch of the per-member `try` block in `_run_worker`:
`per_user[did] = "ok"; stats["ok"] += 1; index = i + 1; last_error = "-"`. -/
def markOk (p : Progress) (user : Actor) : Progress :=
  { p with
    perUser := setPerUser p.perUser user.did "ok",
    stats := { p.stats with ok := p.stats.ok + 1 },
    index := p.index + 1,
    lastError := "-" }

/-- The `except` branch of the per-member `try` block in `_run_worker`:
`per_user[did] = "fail: e"; stats["fail"] += 1; index = i + 1;
last_error = str(e)`. -/
def markFail (p : Progress) (user : Actor) (reason : String) : Progress :=
  { p with
    perUser := setPerUser p.perUser user.did ("fail: " ++ reason),
    stats := { p.stats with fail := p.stats.fail + 1 },
    index := p.index + 1,
    lastError := reason }

/-- The external interactions of one iteration of the `_run_worker` loop:
the result of `latest_post_uri` for this member, the stripped message chosen
by `random.choice(messages).strip()`, and whether `reply_to_post`
succeeds. -/
structure MemberEnv where
  latestUri : Option String
  msg : String
  replyOk : Bool

/-- One iteration of the per-member `try` block of `_run_worker`: a missing
latest post raises `skipped_no_own_posts`, an empty message raises
`empty_message`, a failing reply raises; every raise lands in the `except`
branch (`markFail`), a completed reply lands in `markOk`. -/
def process_member (env : MemberEnv) (user : Actor) (p : Progress) :
    Progress :=
  match env.latestUri with
  | none => markFail p user "skipped_no_own_posts"
  | some _ =>
    if env.msg = "" then markFail p user "empty_message"
    else if env.replyOk then markOk p user
    else markFail p user "reply_error"

/-- The filtering pass of `_run_worker` over the fetched audience:
`for a in audience: try: if has_posts(...): filtered.append(a) except: pass`.
The probe oracle returns `none` when `has_posts` raises. -/
def filter_has_posts (probe : Actor → Option Bool) (aud : List Actor) :
    List Actor :=
  aud.filter (fun a => probe a == some true)

/-- The initialization phase of `_run_worker` before the loop: set state
`Running`, clear `last_error`, fetch the audience, filter it with
`has_posts`, store it as the new `audience`, keep `index`
(`progress.get("index", 0)`), and set `stats["total"]` to the filtered
length. -/
def worker_init (p : Progress) (raw : List Actor)
    (probe : Actor → Option Bool) : Progress :=
  { p with
    state := "Running",
    lastError := "-",
    audience := filter_has_posts probe raw,
    stats := { p.stats with total := (filter_has_posts probe raw).length } }

/-- The record written by the `/start` route before spawning the worker:
state `Queued`, empty audience, zero index and counters. -/
def startRecord : Progress :=
  { state := "Queued", audience := [], index := 0,
    stats := { ok := 0, fail := 0, total := 0 }, perUser := [],
    lastError := "-" }

/-- The state-only saves of `_run_worker` (stop acknowledged, rest cycle,
fatal client error): they touch only `state` and `last_error`. -/
def setState (p : Progress) (s e : String) : Progress :=
  { p with state := s, lastError := e }

/-- Run `n` iterations of the `_run_worker` member loop (the loop exits when
`index` reaches the audience length). -/
def runSteps (envs : Nat → MemberEnv) : Nat → Progress → Progress
  | 0, p => p
  | n + 1, p =>
    match p.audience[p.index]? with
    | none => p
    | some user => runSteps envs n (process_member (envs p.index) user p)

/-- The members processed by `n` iterations of the `_run_worker` loop, in
processing order. -/
def runTrace (envs : Nat → MemberEnv) : Nat → Progress → List Actor
  | 0, _ => []
  | n + 1, p =>
    match p.audience[p.index]? with
    | none => []
    | some user => user :: runTrace envs n (process_member (envs p.index) user p)

/-- Run the `_run_worker` member loop to completion from the loop entry
state. -/
def run_worker (envs : Nat → MemberEnv) (p : Progress) : Progress :=
  runSteps envs (p.audience.length - p.index) p

/-- The complete processing trace of the `_run_worker` member loop. -/
def run_worker_trace (envs : Nat → MemberEnv) (p : Progress) : List Actor :=
  runTrace envs (p.audience.length - p.index) p

/-- The progress-record states reachable for a task in `bluesky_bot.py`:
the reset record written by `/start`, worker initialization (also run on
resume), per-member processing steps, and the state-only saves. -/
inductive Reachable (raw : List Actor) (probe : Actor → Option Bool) :
    Progress → Prop
  | start : Reachable raw probe startRecord
  | init (p : Progress) : Reachable raw probe p →
      Reachable raw probe (worker_init p raw probe)
  | step (p : Progress) (e : MemberEnv) (u : Actor) :
      Reachable raw probe p → p.audience[p.index]? = some u →
      Reachable raw probe (process_member e u p)
  | mark (p : Progress) (s t : String) : Reachable raw probe p →
      Reachable raw probe (setState p s t)

/-- The per-post progress dictionary of `botFarah.py`
(`processed_handles`, `last_processed`, `total_processed`). -/
structure FarahProgress where
  processed_handles : List String
  last_processed : String
  total_processed : Nat
deriving Repr, DecidableEq

/-- Classification of one iteration of
`botFarah.BlueSkyBot.process_reposters_with_replies`. -/
inductive FarahStep
  | skipped
  | replied
  | failedPrompt
deriving Repr, DecidableEq

/-- Python `set.add` on the modelled handle set (kept in first-added
order). -/
def addHandle (hs : List String) (h : String) : List String :=
  if h ∈ hs then hs else hs ++ [h]

/-- One iteration of the reposter loop in
`botFarah.BlueSkyBot.process_reposters_with_replies`: no latest post marks
the handle processed and continues; a successful reply marks it processed;
a failed reply leaves progress untouched and prompts the operator. -/
def farah_process_member (latest : Option String) (replyOk : Bool)
    (handle : String) (fp : FarahProgress) : FarahProgress × FarahStep :=
  match latest with
  | none =>
    let ph := addHandle fp.processed_handles handle
    ({ processed_handles := ph, last_processed := handle,
       total_processed := ph.length }, FarahStep.skipped)
  | some _ =>
    if replyOk then
      let ph := addHandle fp.processed_handles handle
      ({ processed_handles := ph, last_processed := handle,
         total_processed := ph.length }, FarahStep.replied)
    else
      (fp, FarahStep.failedPrompt)

/-- The JSON body of the `/start` route after the line-splitting of
`messages` (`[m.strip() for m in messages_raw.splitlines() if m.strip()]`);
`min_delay`/`max_delay` are `none` when the key is absent. -/
structure StartBody where
  handle : String
  password : String
  post_url : String
  mode : String
  min_delay : Option Int
  max_delay : Option Int
  messages : List String
deriving Repr, DecidableEq

/-- Result of the `/start` route. -/
inductive StartResult
  | missingFields
  | badMode
  | alreadyRunning
  | started (minDelay maxDelay : Int)
deriving Repr, DecidableEq

/-- `int(body.get("min_delay") or DEFAULT)`: an absent key or the falsy
value `0` both fall back to the default. -/
def orDefault (v : Option Int) (d : Int) : Int :=
  match v with
  | none => d
  | some x => if x = 0 then d else x

/-- The `/start` route of `bluesky_bot.py`.  `running` is
`_worker_thread and _worker_thread.is_alive()`; the returned `Progress` is
the persisted record after the call.  Source order is kept: delays are
normalized (swapped when `min > max`), the record is reset and saved, and
only then is the already-running check made. -/
def start_route (running : Bool) (defMin defMax : Int) (stored : Progress)
    (b : StartBody) : StartResult × Progress :=
  let minD := orDefault b.min_delay defMin
  let maxD := orDefault b.max_delay defMax
  if b.handle = "" ∨ b.password = "" ∨ b.post_url = "" ∨ b.messages = [] then
    (StartResult.missingFields, stored)
  else if b.mode ≠ "likers" ∧ b.mode ≠ "reposters" then
    (StartResult.badMode, stored)
  else
    let minD' := if minD > maxD then maxD else minD
    let maxD' := if minD > maxD then minD else maxD
    if running then (StartResult.alreadyRunning, startRecord)
    else (StartResult.started minD' maxD', startRecord)

/-- Result of `bot.queue_task`. -/
inductive QueueResult
  | missingUrls
  | missingCreds
  | delayTooSmall
  | maxLessThanMin
  | queued (minDelay maxDelay : Int)
deriving Repr, DecidableEq

/-- The `/queue_task` route of `bot.py`: `post_urls` is the stripped
non-empty list; absent delays default to 300 and 360
(`data.get('min_delay', 300)`); delays below 1 and `max < min` are
rejected. -/
def queue_task (post_urls : List String) (handle password : String)
    (min_delay max_delay : Option Int) : QueueResult :=
  if post_urls = [] then QueueResult.missingUrls
  else if handle = "" ∨ password = "" then QueueResult.missingCreds
  else if min_delay.getD 300 < 1 ∨ max_delay.getD 360 < 1 then
    QueueResult.delayTooSmall
  else if max_delay.getD 360 < min_delay.getD 300 then
    QueueResult.maxLessThanMin
  else QueueResult.queued (min_delay.getD 300) (max_delay.getD 360)

/-- Content of a file in the persistence model: missing, truncated to empty
(after `open(path, "w")` and before the dump), or a complete serialized
record identified by a number. -/
inductive FileContent
  | absent
  | empty
  | full (r : Nat)
deriving Repr, DecidableEq

/-- The two files touched by the progress savers: the progress file and the
temporary `*.tmp` file of `config._save_all_progress`. -/
structure FS where
  main : FileContent
  tmp : FileContent
deriving Repr, DecidableEq

/-- Atomic file-system operations performed by the savers. -/
inductive FileOp
  | truncateMain
  | writeMain (r : Nat)
  | truncateTmp
  | writeTmp (r : Nat)
  | renameTmpToMain
deriving Repr, DecidableEq

def applyOp (fs : FS) : FileOp → FS
  | FileOp.truncateMain => { fs with main := FileContent.empty }
  | FileOp.writeMain r => { fs with main := FileContent.full r }
  | FileOp.truncateTmp => { fs with tmp := FileContent.empty }
  | FileOp.writeTmp r => { fs with tmp := FileContent.full r }
  | FileOp.renameTmpToMain => { main := fs.tmp, tmp := FileContent.absent }

def runOps (fs : FS) (ops : List FileOp) : FS :=
  ops.foldl applyOp fs

/-- The JSON branch of `utils.save_progress` and the whole of
`botFarah.save_progress`: `open(path, "w")` truncates the progress file in
place, then `json.dump` writes the new record. -/
def save_progress_ops (r : Nat) : List FileOp :=
  [FileOp.truncateMain, FileOp.writeMain r]

/-- `config._save_all_progress`: write the record to `path + ".tmp"`, then
`os.replace(tmp_path, file_path)`. -/
def save_all_progress_ops (r : Nat) : List FileOp :=
  [FileOp.truncateTmp, FileOp.writeTmp r, FileOp.renameTmpToMain]

/-- A save routine is atomic for a given prior record when interrupting it
after any prefix of its operations leaves the progress file holding either
the prior content or the complete new record. -/
def atomicSave (ops : List FileOp) (oldMain : FileContent) (newRec : Nat) :
    Prop :=
  ∀ k ∈ List.range (ops.length + 1),
    (runOps { main := oldMain, tmp := FileContent.absent } (ops.take k)).main
        = oldMain ∨
    (runOps { main := oldMain, tmp := FileContent.absent } (ops.take k)).main
        = FileContent.full newRec

/-! Concrete fixtures used by counterexamples and witnesses. -/

def actorA : Actor := { did := "did:a", handle := "a" }

def actorB : Actor := { did := "did:b", handle := "b" }

def actorC : Actor := { did := "did:c", handle := "c" }

/-- A member environment in which `latest_post_uri` finds nothing. -/
def envSkip : MemberEnv := { latestUri := none, msg := "hi", replyOk := true }

/-- A loop-entry progress state with a one-member audience. -/
def progA : Progress :=
  { state := "Running", audience := [actorA], index := 0,
    stats := { ok := 0, fail := 0, total := 1 }, perUser := [],
    lastError := "-" }

/-- A stored record of a task that already processed its one-member
audience. -/
def storedDone : Progress :=
  { state := "Idle", audience := [actorA], index := 1,
    stats := { ok := 1, fail := 0, total := 1 },
    perUser := [("did:a", "ok")], lastError := "-" }

/-- A feed page whose single item qualifies for actor `u`. -/
def goodPage : FeedPage :=
  { feed := [{ reason := false, post := { author_did := some "u", uri := "x" } }],
    cursor := none }

/-- The deterministic probe used by the claim C2 witness. -/
def probeTrue : Actor → Option Bool := fun _ => some true

/-- The member environments used by the claim C2 witness. -/
def envsOk : Nat → MemberEnv := fun _ =>
  { latestUri := some "p", msg := "m", replyOk := true }

/-- A valid `/start` body (all required fields present, mode `likers`). -/
def bodyOk : StartBody :=
  { handle := "h", password := "pw", post_url := "u", mode := "likers",
    min_delay := some 60, max_delay := some 120, messages := ["m"] }

/-- A `/start` body with negative delays (otherwise valid). -/
def bodyNeg : StartBody :=
  { handle := "h", password := "pw", post_url := "u", mode := "likers",
    min_delay := some (-10), max_delay := some (-5), messages := ["m"] }

theorem dedup_audience_sublist (l : List Actor) (seen : List String) :
    List.Sublist (dedup_audience l seen) l := by
  induction l generalizing seen with
  | nil => simp [dedup_audience]
  | cons a rest ih =>
    simp only [dedup_audience]
    split
    · exact (ih seen).cons a
    · exact (ih (a.did :: seen)).cons₂ a

theorem dedup_audience_mem_not_seen {x : Actor} {l : List Actor}
    {seen : List String} (hx : x ∈ dedup_audience l seen) : x.did ∉ seen := by
  induction l generalizing seen with
  | nil => simp [dedup_audience] at hx
  | cons a rest ih =>
    simp only [dedup_audience] at hx
    split at hx
    · exact ih hx
    · rcases List.mem_cons.mp hx with h | h
      · subst h; assumption
      · intro hmem
        exact (ih h) (List.mem_cons_of_mem _ hmem)

theorem dedup_audience_countP_of_seen (l : List Actor) (seen : List String)
    (d : String) (hd : d ∈ seen) :
    (dedup_audience l seen).countP (fun x => x.did == d) = 0 := by
  rw [List.countP_eq_zero]
  intro x hx
  have := dedup_audience_mem_not_seen hx
  simp only [beq_iff_eq]
  intro hxd
  exact this (hxd ▸ hd)

theorem dedup_audience_countP (l : List Actor) (seen : List String)
    (d : String) (hd : d ∉ seen) :
    (dedup_audience l seen).countP (fun x => x.did == d) =
      if l.any (fun x => x.did == d) then 1 else 0 := by
  induction l generalizing seen with
  | nil => simp [dedup_audience]
  | cons a rest ih =>
    simp only [dedup_audience, List.any_cons]
    by_cases haseen : a.did ∈ seen
    · have had : a.did ≠ d := fun h => hd (h ▸ haseen)
      simp [haseen, had, ih seen hd]
    · by_cases had : a.did = d
      · subst had
        have : (dedup_audience rest (a.did :: seen)).countP
            (fun x => x.did == a.did) = 0 :=
          dedup_audience_countP_of_seen rest _ a.did (List.mem_cons_self _ _)
        simp [haseen, List.countP_cons, this]
      · have hd' : d ∉ a.did :: seen := by
          intro h
          rcases List.mem_cons.mp h with h | h
          · exact had h.symm
          · exact hd h
        simp [haseen, had, List.countP_cons, ih (a.did :: seen) hd',
          Ne.symm had]

theorem dedup_audience_find? (l : List Actor) (seen : List String)
    (d : String) (hd : d ∉ seen) :
    (dedup_audience l seen).find? (fun x => x.did == d) =
      l.find? (fun x => x.did == d) := by
  induction l generalizing seen with
  | nil => simp [dedup_audience]
  | cons a rest ih =>
    simp only [dedup_audience]
    by_cases haseen : a.did ∈ seen
    · have had : a.did ≠ d := fun h => hd (h ▸ haseen)
      rw [if_pos haseen, ih seen hd, List.find?_cons_of_neg]
      simp [had]
    · by_cases had : a.did = d
      · subst had
        rw [if_neg haseen, List.find?_cons_of_pos, List.find?_cons_of_pos]
          <;> simp
      · have hd' : d ∉ a.did :: seen := by
          intro h
          rcases List.mem_cons.mp h with h | h
          · exact had h.symm
          · exact hd h
        rw [if_neg haseen, List.find?_cons_of_neg, List.find?_cons_of_neg,
          ih (a.did :: seen) hd'] <;> simp [had]

theorem has_posts_reqs_le_fuel (who : String) (fuel : Nat)
    (pages : List FeedPage) : has_posts_reqs who fuel pages ≤ fuel := by
  induction fuel generalizing pages with
  | zero => simp [has_posts_reqs]
  | succ n ih =>
    cases pages with
    | nil => simp [has_posts_reqs]
    | cons p rest =>
      simp only [has_posts_reqs]
      split
      · omega
      · split
        · omega
        · cases p.cursor with
          | none => simp
          | some c =>
            simp only
            have := ih rest
            omega

theorem latest_post_uri_reqs_junk_cons (who : String) (rest : List FeedPage) :
    latest_post_uri_reqs who (junkPage :: rest) =
      1 + latest_post_uri_reqs who rest := by
  simp [latest_post_uri_reqs, junkPage, qualifies, is_repost]

theorem latest_post_uri_reqs_replicate (who : String) (n : Nat) :
    latest_post_uri_reqs who (List.replicate n junkPage) = n + 1 := by
  induction n with
  | zero => simp [latest_post_uri_reqs]
  | succ m ih =>
    rw [List.replicate_succ, latest_post_uri_reqs_junk_cons, ih]
    omega

theorem process_member_audience (env : MemberEnv) (user : Actor)
    (p : Progress) : (process_member env user p).audience = p.audience := by
  unfold process_member
  cases env.latestUri with
  | none => rfl
  | some u =>
    dsimp only
    split_ifs <;> rfl

theorem process_member_index (env : MemberEnv) (user : Actor)
    (p : Progress) : (process_member env user p).index = p.index + 1 := by
  unfold process_member
  cases env.latestUri with
  | none => rfl
  | some u =>
    dsimp only
    split_ifs <;> rfl

theorem process_member_total (env : MemberEnv) (user : Actor)
    (p : Progress) : (process_member env user p).stats.total =
      p.stats.total := by
  unfold process_member
  cases env.latestUri with
  | none => rfl
  | some u =>
    dsimp only
    split_ifs <;> rfl

theorem process_member_ok_fail (env : MemberEnv) (user : Actor)
    (p : Progress) :
    (process_member env user p).stats.ok +
      (process_member env user p).stats.fail =
      p.stats.ok + p.stats.fail + 1 := by
  unfold process_member
  cases env.latestUri with
  | none => dsimp [markFail]; omega
  | some u =>
    dsimp only
    split_ifs <;> dsimp [markOk, markFail] <;> omega

theorem process_member_stats_congr (env : MemberEnv) (user : Actor)
    (p q : Progress) (h : p.stats = q.stats) :
    (process_member env user p).stats = (process_member env user q).stats := by
  unfold process_member
  cases env.latestUri with
  | none => dsimp [markFail]; rw [h]
  | some u =>
    dsimp only
    split_ifs <;> dsimp [markOk, markFail] <;> rw [h]

theorem runSteps_stuck (envs : Nat → MemberEnv) (n : Nat) (p : Progress)
    (h : p.audience[p.index]? = none) : runSteps envs n p = p := by
  cases n with
  | zero => rfl
  | succ m => simp [runSteps, h]

theorem runSteps_add (envs : Nat → MemberEnv) (a b : Nat) (p : Progress) :
    runSteps envs (a + b) p = runSteps envs b (runSteps envs a p) := by
  induction a generalizing p with
  | zero => simp [runSteps]
  | succ m ih =>
    have : m + 1 + b = (m + b) + 1 := by omega
    rw [this]
    simp only [runSteps]
    cases hget : p.audience[p.index]? with
    | none =>
      rw [runSteps_stuck envs b p hget]
    | some user =>
      exact ih (process_member (envs p.index) user p)

theorem runSteps_audience (envs : Nat → MemberEnv) (n : Nat) (p : Progress) :
    (runSteps envs n p).audience = p.audience := by
  induction n generalizing p with
  | zero => rfl
  | succ m ih =>
    simp only [runSteps]
    cases hget : p.audience[p.index]? with
    | none => rfl
    | some user =>
      rw [ih, process_member_audience]

theorem runSteps_total (envs : Nat → MemberEnv) (n : Nat) (p : Progress) :
    (runSteps envs n p).stats.total = p.stats.total := by
  induction n generalizing p with
  | zero => rfl
  | succ m ih =>
    simp only [runSteps]
    cases hget : p.audience[p.index]? with
    | none => rfl
    | some user =>
      rw [ih, process_member_total]

theorem runSteps_index (envs : Nat → MemberEnv) (n : Nat) (p : Progress)
    (h : p.index + n ≤ p.audience.length) :
    (runSteps envs n p).index = p.index + n := by
  induction n generalizing p with
  | zero => rfl
  | succ m ih =>
    simp only [runSteps]
    cases hget : p.audience[p.index]? with
    | none =>
      rw [List.getElem?_eq_none_iff] at hget
      omega
    | some user =>
      rw [ih]
      · rw [process_member_index]; omega
      · rw [process_member_index, process_member_audience]; omega

theorem runSteps_congr (envs : Nat → MemberEnv) (n : Nat) (p q : Progress)
    (haud : p.audience = q.audience) (hidx : p.index = q.index)
    (hst : p.stats = q.stats) :
    (runSteps envs n p).stats = (runSteps envs n q).stats := by
  induction n generalizing p q with
  | zero => exact hst
  | succ m ih =>
    simp only [runSteps]
    rw [haud, hidx]
    cases hget : q.audience[q.index]? with
    | none => exact hst
    | some user =>
      apply ih
      · rw [process_member_audience, process_member_audience, haud]
      · rw [process_member_index, process_member_index, hidx]
      · exact process_member_stats_congr _ _ _ _ hst

theorem runTrace_eq (envs : Nat → MemberEnv) (n : Nat) (p : Progress) :
    runTrace envs n p = (p.audience.drop p.index).take n := by
  induction n generalizing p with
  | zero => simp [runTrace]
  | succ m ih =>
    simp only [runTrace]
    cases hget : p.audience[p.index]? with
    | none =>
      rw [List.getElem?_eq_none_iff] at hget
      rw [List.drop_eq_nil_of_le hget]
      simp
    | some user =>
      have hlt : p.index < p.audience.length := by
        by_contra hc
        rw [List.getElem?_eq_none (by omega)] at hget
        exact Option.noConfusion hget
      have huser : p.audience[p.index] = user := by
        rw [List.getElem?_eq_getElem hlt] at hget
        exact Option.some.inj hget
      have hdrop : p.audience.drop p.index =
          user :: p.audience.drop (p.index + 1) := by
        rw [List.drop_eq_getElem_cons hlt, huser]
      dsimp only
      rw [hdrop, List.take_succ_cons, ih,
        process_member_audience, process_member_index]

/-- Claim C7: in the concatenation of the raw listing pages, an identity
occurring at two positions `i < j` appears in the fetched audience exactly
once, the kept element is the first occurrence of that identity, and the
audience is a sublist of the raw listing (relative order of first
occurrences preserved). -/
theorem claim7_dedup_first_occurrence (pages : List (List Actor))
    (i j : Nat) (a b : Actor) (hij : i < j)
    (hi : pages.flatten[i]? = some a) (hj : pages.flatten[j]? = some b)
    (hdid : a.did = b.did) :
    (fetch_audience pages).countP (fun x => x.did == a.did) = 1 ∧
    (fetch_audience pages).find? (fun x => x.did == a.did) =
      pages.flatten.find? (fun x => x.did == a.did) ∧
    List.Sublist (fetch_audience pages) pages.flatten := by
  have ha : a ∈ pages.flatten := List.getElem?_mem hi
  have hany : pages.flatten.any (fun x => x.did == a.did) = true :=
    List.any_eq_true.mpr ⟨a, ha, by simp⟩
  refine ⟨?_, ?_, ?_⟩
  · rw [fetch_audience, dedup_audience_countP _ _ _ (by simp), hany]
    rfl
  · rw [fetch_audience, dedup_audience_find? _ _ _ (by simp)]
  · exact dedup_audience_sublist _ _

theorem claim7_witness :
    (1 < 2 ∧
      ([[actorA, actorB], [actorB, actorC]] :
        List (List Actor)).flatten[1]? = some actorB ∧
      ([[actorA, actorB], [actorB, actorC]] :
        List (List Actor)).flatten[2]? = some actorB) ∧
    ((fetch_audience [[actorA, actorB], [actorB, actorC]]).countP
        (fun x => x.did == actorB.did) = 1 ∧
      (fetch_audience [[actorA, actorB], [actorB, actorC]]).find?
          (fun x => x.did == actorB.did) =
        ([[actorA, actorB], [actorB, actorC]] :
          List (List Actor)).flatten.find? (fun x => x.did == actorB.did) ∧
      List.Sublist (fetch_audience [[actorA, actorB], [actorB, actorC]])
        ([[actorA, actorB], [actorB, actorC]] :
          List (List Actor)).flatten) :=
  ⟨⟨by decide, by decide, by decide⟩,
    claim7_dedup_first_occurrence [[actorA, actorB], [actorB, actorC]] 1 2
      actorB actorB (by decide) (by decide) (by decide) rfl⟩

/-- Claim C8 counterexample: `utils.latest_post_uri` is not bounded by the
three-page limit used in `has_posts` — a service supplying four repost-only
pages with continuation cursors receives five page requests. -/
theorem claim8_counterexample :
    latest_post_uri_reqs "u" (List.replicate 4 junkPage) = 5 ∧ ¬ (5 ≤ 3) := by
  constructor
  · rw [latest_post_uri_reqs_replicate]
  · decide

/-- Claim C8 (amended): `utils.has_posts` issues at most three page
requests, and both scans stop at the first page holding a qualifying item,
but `utils.latest_post_uri` follows continuation cursors without any fixed
bound — on a service supplying `n` non-qualifying pages it issues `n + 1`
requests, growing with the supply. -/
theorem claim8_page_bounds (who : String) (n : Nat)
    (pages : List FeedPage) (p : FeedPage) (rest : List FeedPage)
    (hq : p.feed.any (qualifies who) = true) :
    has_posts_reqs who 3 pages ≤ 3 ∧
    latest_post_uri_reqs who (List.replicate n junkPage) = n + 1 ∧
    latest_post_uri_reqs who (p :: rest) = 1 := by
  refine ⟨has_posts_reqs_le_fuel who 3 pages,
    latest_post_uri_reqs_replicate who n, ?_⟩
  by_cases hempty : p.feed.isEmpty
  · simp [latest_post_uri_reqs, hempty]
  · simp [latest_post_uri_reqs, hempty, hq]

theorem claim8_witness :
    goodPage.feed.any (qualifies "u") = true ∧
    (has_posts_reqs "u" 3 [goodPage] ≤ 3 ∧
      latest_post_uri_reqs "u" (List.replicate 2 junkPage) = 2 + 1 ∧
      latest_post_uri_reqs "u" (goodPage :: []) = 1) :=
  ⟨by decide, claim8_page_bounds "u" 2 [goodPage] goodPage [] (by decide)⟩

/-- Claim C5 counterexample: the truncate-then-write save of
`utils.save_progress` (JSON branch) and `botFarah.save_progress` is not
atomic — interrupting it after the truncation leaves the progress file
empty, losing the previously stored record. -/
theorem claim5_counterexample :
    ¬ atomicSave (save_progress_ops 1) (FileContent.full 0) 1 := by
  unfold atomicSave
  decide

/-- Claim C5 (amended): only `config._save_all_progress` saves atomically
(write to a temporary file, then rename over the progress file);
`utils.save_progress` (JSON branch) and `botFarah.save_progress` truncate
the progress file in place before writing, so interrupting them right after
the truncation leaves the stored record empty. -/
theorem claim5_save_atomicity (old : FileContent) (r : Nat) :
    atomicSave (save_all_progress_ops r) old r ∧
    (runOps { main := old, tmp := FileContent.absent }
        ((save_progress_ops r).take 1)).main = FileContent.empty := by
  constructor
  · intro k hk
    simp only [save_all_progress_ops, List.length_cons, List.length_nil,
      List.mem_range] at hk
    interval_cases k <;>
      simp [runOps, applyOp, save_all_progress_ops, List.take]
  · rfl

theorem claim5_witness :
    atomicSave (save_all_progress_ops 7) (FileContent.full 3) 7 ∧
    (runOps { main := FileContent.full 3, tmp := FileContent.absent }
        ((save_progress_ops 7).take 1)).main = FileContent.empty :=
  claim5_save_atomicity (FileContent.full 3) 7

/-- Claim C1 counterexample: in `bluesky_bot._run_worker` a member for whom
`latest_post_uri` locates nothing is recorded as a failure
(`fail` is incremented and the member is classified
`fail: skipped_no_own_posts`), contradicting the claim that the failed count
is not incremented and the member is never classified as failed. -/
theorem claim1_counterexample :
    (process_member envSkip actorA progA).stats.fail = 1 ∧
    progA.stats.fail = 0 ∧
    (process_member envSkip actorA progA).perUser =
      [("did:a", "fail: skipped_no_own_posts")] := by
  refine ⟨rfl, rfl, ?_⟩
  decide

/-- Claim C1 (amended): a member with no located content is non-fatal in
both workers — the loop always advances to the next member — but in
`bluesky_bot._run_worker` the member lands in the generic `except` branch,
so the failed count IS incremented and the member is classified
`fail: skipped_no_own_posts` (there is no separate skipped counter); in
`botFarah.process_reposters_with_replies` the member is marked processed
and skipped without any failure being recorded. -/
theorem claim1_no_content_nonfatal (p : Progress) (u : Actor) (e : MemberEnv)
    (he : e.latestUri = none) (fp : FarahProgress) (h : String) (ro : Bool) :
    (process_member e u p = markFail p u "skipped_no_own_posts" ∧
      (process_member e u p).index = p.index + 1 ∧
      (process_member e u p).stats.fail = p.stats.fail + 1 ∧
      (process_member e u p).stats.ok = p.stats.ok) ∧
    ((farah_process_member none ro h fp).2 = FarahStep.skipped ∧
      h ∈ (farah_process_member none ro h fp).1.processed_handles) := by
  constructor
  · have hpm : process_member e u p = markFail p u "skipped_no_own_posts" := by
      unfold process_member
      rw [he]
    refine ⟨hpm, ?_, ?_, ?_⟩ <;> rw [hpm] <;> rfl
  · constructor
    · rfl
    · show h ∈ addHandle fp.processed_handles h
      unfold addHandle
      split
      · assumption
      · simp

theorem claim1_witness :
    envSkip.latestUri = none ∧
    ((process_member envSkip actorA progA =
        markFail progA actorA "skipped_no_own_posts" ∧
      (process_member envSkip actorA progA).index = progA.index + 1 ∧
      (process_member envSkip actorA progA).stats.fail =
        progA.stats.fail + 1 ∧
      (process_member envSkip actorA progA).stats.ok = progA.stats.ok) ∧
    ((farah_process_member none true "h" ⟨[], "", 0⟩).2 =
        FarahStep.skipped ∧
      "h" ∈ (farah_process_member none true "h"
        ⟨[], "", 0⟩).1.processed_handles)) :=
  ⟨rfl, claim1_no_content_nonfatal progA actorA envSkip rfl ⟨[], "", 0⟩ "h" true⟩

/-- Claim C3 counterexample: resuming a task whose stored record already
holds a non-empty audience overwrites that audience — `_run_worker`
unconditionally re-fetches the listing and stores the freshly filtered
result (here the fresh listing is empty, so the stored audience is
replaced). -/
theorem claim3_counterexample :
    storedDone.audience ≠ [] ∧
    (worker_init storedDone [] (fun _ => some true)).audience ≠
      storedDone.audience := by
  constructor <;> decide

/-- Claim C3 (amended): `_run_worker` (run by both `/start` and `/resume`)
always re-fetches the listing and replaces the stored audience with the
freshly fetched, `has_posts`-filtered list; only the cursor (`index`), the
counters and the per-member outcome map of the stored record are
preserved. -/
theorem claim3_resume_refetches (stored : Progress) (raw : List Actor)
    (probe : Actor → Option Bool) :
    (worker_init stored raw probe).audience = filter_has_posts probe raw ∧
    (worker_init stored raw probe).index = stored.index ∧
    (worker_init stored raw probe).stats.ok = stored.stats.ok ∧
    (worker_init stored raw probe).stats.fail = stored.stats.fail ∧
    (worker_init stored raw probe).perUser = stored.perUser :=
  ⟨rfl, rfl, rfl, rfl, rfl⟩

theorem claim3_witness :
    (worker_init storedDone [actorA, actorB] (fun _ => some true)).audience =
      filter_has_posts (fun _ => some true) [actorA, actorB] ∧
    (worker_init storedDone [actorA, actorB]
        (fun _ => some true)).index = storedDone.index ∧
    (worker_init storedDone [actorA, actorB]
        (fun _ => some true)).stats.ok = storedDone.stats.ok ∧
    (worker_init storedDone [actorA, actorB]
        (fun _ => some true)).stats.fail = storedDone.stats.fail ∧
    (worker_init storedDone [actorA, actorB]
        (fun _ => some true)).perUser = storedDone.perUser :=
  claim3_resume_refetches storedDone [actorA, actorB] (fun _ => some true)

/-- Claim C10: the audience frozen by the worker is the `has_posts`-filtered
engager list — a member is stored iff the probe returned `True` (probe
errors and `False` results are silently excluded), the filtering preserves
order, and the stored total is the filtered length. -/
theorem claim10_audience_filtered (stored : Progress) (raw : List Actor)
    (probe : Actor → Option Bool) :
    (worker_init stored raw probe).audience = filter_has_posts probe raw ∧
    List.Sublist (filter_has_posts probe raw) raw ∧
    (∀ a : Actor, a ∈ filter_has_posts probe raw ↔
      a ∈ raw ∧ probe a = some true) ∧
    (worker_init stored raw probe).stats.total =
      (filter_has_posts probe raw).length := by
  refine ⟨rfl, List.filter_sublist _, ?_, rfl⟩
  intro a
  simp [filter_has_posts, List.mem_filter]

theorem claim10_witness :
    (worker_init startRecord [actorA, actorB]
        (fun a => if a.did = "did:a" then some true else some false)).audience
      = filter_has_posts
          (fun a => if a.did = "did:a" then some true else some false)
          [actorA, actorB] ∧
    List.Sublist
      (filter_has_posts
        (fun a => if a.did = "did:a" then some true else some false)
        [actorA, actorB]) [actorA, actorB] ∧
    (∀ a : Actor,
      a ∈ filter_has_posts
          (fun a => if a.did = "did:a" then some true else some false)
          [actorA, actorB] ↔
        a ∈ [actorA, actorB] ∧
          (if a.did = "did:a" then some true else some false) = some true) ∧
    (worker_init startRecord [actorA, actorB]
        (fun a => if a.did = "did:a" then some true else some false)).stats.total
      = (filter_has_posts
          (fun a => if a.did = "did:a" then some true else some false)
          [actorA, actorB]).length :=
  claim10_audience_filtered startRecord [actorA, actorB]
    (fun a => if a.did = "did:a" then some true else some false)

/-- Claim C4: in every reachable progress state of a task the sum of the
maintained per-outcome counters equals the cursor (`ok + fail = index`; the
worker keeps no separate skipped counter, skipped members being tallied in
`fail`), and no worker transition — member processing, worker
initialization, or a state-only save — ever decreases the cursor. -/
theorem claim4_cursor_invariant (raw : List Actor)
    (probe : Actor → Option Bool) :
    (∀ p : Progress, Reachable raw probe p →
      p.stats.ok + p.stats.fail = p.index) ∧
    (∀ (p : Progress) (e : MemberEnv) (u : Actor),
      p.index ≤ (process_member e u p).index) ∧
    (∀ p : Progress, p.index ≤ (worker_init p raw probe).index) ∧
    (∀ (p : Progress) (s t : String), p.index ≤ (setState p s t).index) := by
  refine ⟨?_, ?_, ?_, ?_⟩
  · intro p hp
    induction hp with
    | start => rfl
    | init q hq ih => exact ih
    | step q e u hq hget ih =>
      rw [process_member_index]
      have := process_member_ok_fail e u q
      omega
    | mark q s t hq ih => exact ih
  · intro p e u
    rw [process_member_index]
    omega
  · intro p
    exact le_refl _
  · intro p s t
    exact le_refl _

theorem claim4_witness :
    Reachable [actorA] (fun _ => some true)
      (worker_init startRecord [actorA] (fun _ => some true)) ∧
    (worker_init startRecord [actorA] (fun _ => some true)).stats.ok +
        (worker_init startRecord [actorA] (fun _ => some true)).stats.fail =
      (worker_init startRecord [actorA] (fun _ => some true)).index :=
  ⟨Reachable.init startRecord Reachable.start,
    (claim4_cursor_invariant [actorA] (fun _ => some true)).1
      (worker_init startRecord [actorA] (fun _ => some true))
      (Reachable.init startRecord Reachable.start)⟩

/-- Claim C2: resume is idempotent.  Starting from the reset record, run
the worker, interrupt after exactly `k` processed-and-checkpointed members,
and resume (worker re-initialization on the checkpoint, with the external
service deterministic, i.e. serving the same raw listing and probe
results).  The resumed run processes exactly the remaining members, in
order, each once (its trace is the audience with the first `k` members
dropped), and its final counters equal those of the uninterrupted run. -/
theorem claim2_idempotent_resume (raw : List Actor)
    (probe : Actor → Option Bool) (envs : Nat → MemberEnv) (k : Nat)
    (hk : k < (filter_has_posts probe raw).length) :
    run_worker_trace envs
        (worker_init (runSteps envs k (worker_init startRecord raw probe))
          raw probe)
      = (filter_has_posts probe raw).drop k ∧
    (run_worker envs
        (worker_init (runSteps envs k (worker_init startRecord raw probe))
          raw probe)).stats
      = (run_worker envs (worker_init startRecord raw probe)).stats := by
  set A := filter_has_posts probe raw with hAdef
  set p0 := worker_init startRecord raw probe with hp0def
  set ck := runSteps envs k p0 with hckdef
  set rs := worker_init ck raw probe with hrsdef
  have hp0aud : p0.audience = A := rfl
  have hp0idx : p0.index = 0 := rfl
  have hp0tot : p0.stats.total = A.length := rfl
  have hckaud : ck.audience = A := by
    rw [hckdef, runSteps_audience, hp0aud]
  have hckidx : ck.index = k := by
    rw [hckdef]
    have := runSteps_index envs k p0 (by rw [hp0idx, hp0aud]; omega)
    rw [hp0idx] at this
    omega
  have hcktot : ck.stats.total = A.length := by
    rw [hckdef, runSteps_total, hp0tot]
  have hrsaud : rs.audience = A := rfl
  have hrsidx : rs.index = k := hckidx
  have hrsstats : rs.stats = ck.stats := by
    have h1 : rs.stats = { ck.stats with total := A.length } := rfl
    rw [h1, ← hcktot]
  constructor
  · show runTrace envs (rs.audience.length - rs.index) rs = A.drop k
    rw [runTrace_eq, hrsaud, hrsidx]
    exact List.take_of_length_le (by rw [List.length_drop])
  · show (runSteps envs (rs.audience.length - rs.index) rs).stats =
      (runSteps envs (p0.audience.length - p0.index) p0).stats
    have hfuel1 : rs.audience.length - rs.index = A.length - k := by
      rw [hrsaud, hrsidx]
    have hfuel2 : p0.audience.length - p0.index = A.length := by
      rw [hp0aud, hp0idx]
      omega
    rw [hfuel1, hfuel2]
    have hsplit : runSteps envs A.length p0 =
        runSteps envs (A.length - k) ck := by
      have hlen : A.length = k + (A.length - k) := by omega
      rw [hlen, runSteps_add, ← hckdef]
      congr 1
      omega
    rw [hsplit]
    exact runSteps_congr envs (A.length - k) rs ck
      (by rw [hrsaud, hckaud]) (by rw [hrsidx, hckidx]) hrsstats

theorem claim2_witness :
    1 < (filter_has_posts probeTrue [actorA, actorB, actorC]).length ∧
    (run_worker_trace envsOk
        (worker_init
          (runSteps envsOk 1
            (worker_init startRecord [actorA, actorB, actorC] probeTrue))
          [actorA, actorB, actorC] probeTrue)
      = (filter_has_posts probeTrue [actorA, actorB, actorC]).drop 1 ∧
    (run_worker envsOk
        (worker_init
          (runSteps envsOk 1
            (worker_init startRecord [actorA, actorB, actorC] probeTrue))
          [actorA, actorB, actorC] probeTrue)).stats
      = (run_worker envsOk
          (worker_init startRecord [actorA, actorB, actorC] probeTrue)).stats) :=
  ⟨by decide,
    claim2_idempotent_resume [actorA, actorB, actorC] probeTrue envsOk 1
      (by decide)⟩

/-- Claim C6 counterexample: calling `/start` while a task is running IS
rejected with the already-running error, but only after the route has reset
and saved the persisted checkpoint record — the stored cursor, counters and
audience of the running task are clobbered by the rejected call. -/
theorem claim6_counterexample :
    (start_route true 60 300 storedDone bodyOk).1 =
      StartResult.alreadyRunning ∧
    (start_route true 60 300 storedDone bodyOk).2 ≠ storedDone ∧
    (start_route true 60 300 storedDone bodyOk).2.index = 0 ∧
    storedDone.index = 1 := by
  refine ⟨by decide, by decide, by decide, rfl⟩

/-- Claim C6 (amended): a `/start` call for a running task with a valid body
returns the already-running error, but the persisted record has already been
reset to the fresh start record (state `Queued`, empty audience, cursor 0,
zero counters) before the rejection; the running worker's in-memory state is
untouched and overwrites the file on its next save. -/
theorem claim6_already_running (stored : Progress) (b : StartBody)
    (d1 d2 : Int) (hh : b.handle ≠ "") (hp : b.password ≠ "")
    (hu : b.post_url ≠ "") (hm : b.messages ≠ [])
    (hmode : b.mode = "likers" ∨ b.mode = "reposters") :
    start_route true d1 d2 stored b =
      (StartResult.alreadyRunning, startRecord) := by
  unfold start_route
  have h1 : ¬ (b.handle = "" ∨ b.password = "" ∨ b.post_url = "" ∨
      b.messages = []) := by
    push_neg
    exact ⟨hh, hp, hu, hm⟩
  have h2 : ¬ (b.mode ≠ "likers" ∧ b.mode ≠ "reposters") := by
    rcases hmode with h | h <;> simp [h]
  rw [if_neg h1, if_neg h2]
  simp

theorem claim6_witness :
    bodyOk.handle ≠ "" ∧
    start_route true 60 300 storedDone bodyOk =
      (StartResult.alreadyRunning, startRecord) :=
  ⟨by decide,
    claim6_already_running storedDone bodyOk 60 300 (by decide) (by decide)
      (by decide) (by decide) (Or.inl rfl)⟩

/-- Claim C9 counterexample: `/start` accepts a request whose delays are
both negative — no delay validation error exists, refuting that negative or
absent delays are rejected and that accepted requests satisfy
`0 ≤ min`. -/
theorem claim9_counterexample :
    (start_route false 60 300 startRecord bodyNeg).1 =
      StartResult.started (-10) (-5) := by
  decide

/-- Claim C9 (amended): `bluesky_bot./start` never rejects delay
parameters — absent (or zero) values fall back to the defaults and a
min/max inversion is silently swapped, so every accepted request satisfies
`min ≤ max` but possibly `min < 0`; `bot.queue_task` is the variant that
validates: it rejects delays below 1 and `max < min`, and accepted requests
there satisfy `1 ≤ min ≤ max`, while absent values default to 300/360
without rejection. -/
theorem claim9_delay_validation (running : Bool) (d1 d2 : Int)
    (stored : Progress) (b : StartBody) (mn mx : Int) (urls : List String)
    (h pw : String) (qmn qmx : Option Int) (a c : Int) :
    ((start_route running d1 d2 stored b).1 = StartResult.started mn mx →
      mn ≤ mx) ∧
    (queue_task urls h pw qmn qmx = QueueResult.queued a c →
      1 ≤ a ∧ a ≤ c) ∧
    (urls ≠ [] → h ≠ "" → pw ≠ "" →
      queue_task urls h pw none none = QueueResult.queued 300 360) := by
  refine ⟨?_, ?_, ?_⟩
  · intro hst
    unfold start_route at hst
    split at hst
    · exact absurd hst (by simp)
    · split at hst
      · exact absurd hst (by simp)
      · split at hst
        · exact absurd hst (by simp)
        · simp only [StartResult.started.injEq] at hst
          obtain ⟨hmn, hmx⟩ := hst
          subst hmn
          subst hmx
          split_ifs <;> omega
  · intro hq
    unfold queue_task at hq
    split at hq
    · exact absurd hq (by simp)
    · split at hq
      · exact absurd hq (by simp)
      · split at hq
        · exact absurd hq (by simp)
        · split at hq
          · exact absurd hq (by simp)
          · simp only [QueueResult.queued.injEq] at hq
            obtain ⟨ha, hc⟩ := hq
            subst ha
            subst hc
            omega
  · intro hurls hh hpw
    unfold queue_task
    rw [if_neg hurls, if_neg (by push_neg; exact ⟨hh, hpw⟩)]
    norm_num

theorem claim9_witness :
    ((start_route false 60 300 startRecord bodyOk).1 =
        StartResult.started 60 120 ∧ (60 : Int) ≤ 120) ∧
    (["u"] ≠ ([] : List String) ∧
      queue_task ["u"] "h" "pw" none none = QueueResult.queued 300 360) := by
  have h1 : (start_route false 60 300 startRecord bodyOk).1 =
      StartResult.started 60 120 := by decide
  refine ⟨⟨h1, ?_⟩, by decide, ?_⟩
  · exact (claim9_delay_validation false 60 300 startRecord bodyOk 60 120
      ["u"] "h" "pw" none none 300 360).1 h1
  · exact (claim9_delay_validation false 60 300 startRecord bodyOk 60 120
      ["u"] "h" "pw" none none 300 360).2.2 (by decide) (by decide)
      (by decide)

end BlueskyBot

